import Mathlib

set_option maxRecDepth 8000

namespace EnsureJson

/-- JSON whitespace accepted by the strict parser (space, tab, LF, CR). -/
def isJsonWs (c : Char) : Bool :=
  c == ' ' || c == '\t' || c == '\n' || c == '\r'

/-- Whitespace matched by the JavaScript regex class backslash-s (its ASCII part:
space, tab, LF, CR, VT, FF), used by the rewrite regexes of tryRepair. -/
def isJsWs (c : Char) : Bool :=
  c == ' ' || c == '\t' || c == '\n' || c == '\r' || c == '\x0b' || c == '\x0c'

/-- ASCII decimal digit. -/
def isDigit (c : Char) : Bool :=
  decide (48 ≤ c.toNat) && decide (c.toNat ≤ 57)

def digitVal (c : Char) : Nat := c.toNat - 48

/-- Hexadecimal digit value, for the backslash-u string escapes of JSON. -/
def hexVal? (c : Char) : Option Nat :=
  if 48 ≤ c.toNat ∧ c.toNat ≤ 57 then some (c.toNat - 48)
  else if 97 ≤ c.toNat ∧ c.toNat ≤ 102 then some (c.toNat - 87)
  else if 65 ≤ c.toNat ∧ c.toNat ≤ 70 then some (c.toNat - 55)
  else none

/-- The identifier-key character class [a-zA-Z0-9_] of the bare-key regex
(ensureJson.ts line 73). -/
def isIdentChar (c : Char) : Bool :=
  (decide (97 ≤ c.toNat) && decide (c.toNat ≤ 122)) ||
  (decide (65 ≤ c.toNat) && decide (c.toNat ≤ 90)) ||
  (decide (48 ≤ c.toNat) && decide (c.toNat ≤ 57)) || c == '_'

/-- Skip JSON whitespace. -/
def skipWs (l : List Char) : List Char := l.dropWhile isJsonWs

/-- The value tree produced by JSON.parse: the ParsedValue of the data model.
Object keys keep first-occurrence order with last-write-wins on duplicates. -/
inductive Json where
  | null
  | bool (b : Bool)
  | num (q : Rat)
  | str (s : List Char)
  | arr (elts : List Json)
  | obj (kvs : List (List Char × Json))

/-- Non-container (scalar) values: string, number, boolean, null. -/
def Json.isScalar : Json → Bool
  | Json.obj _ => false
  | Json.arr _ => false
  | _ => true

def consOpt (c : Char) (o : Option (List Char × List Char)) :
    Option (List Char × List Char) :=
  o.map (fun p => (c :: p.1, p.2))

/-- Body of a JSON string literal after the opening quote (fueled; fuel bounds
the number of decoded characters): returns the decoded characters and the text
after the closing quote.  Escapes follow the JSON grammar; a surrogate-pair
escape decodes to one code point. -/
def parseStringAux : Nat → List Char → Option (List Char × List Char)
  | 0, _ => none
  | _ + 1, [] => none
  | _ + 1, '"' :: rest => some ([], rest)
  | f + 1, '\\' :: '"' :: r => consOpt '"' (parseStringAux f r)
  | f + 1, '\\' :: '\\' :: r => consOpt '\\' (parseStringAux f r)
  | f + 1, '\\' :: '/' :: r => consOpt '/' (parseStringAux f r)
  | f + 1, '\\' :: 'b' :: r => consOpt '\x08' (parseStringAux f r)
  | f + 1, '\\' :: 'f' :: r => consOpt '\x0c' (parseStringAux f r)
  | f + 1, '\\' :: 'n' :: r => consOpt '\n' (parseStringAux f r)
  | f + 1, '\\' :: 'r' :: r => consOpt '\x0d' (parseStringAux f r)
  | f + 1, '\\' :: 't' :: r => consOpt '\t' (parseStringAux f r)
  | f + 1, '\\' :: 'u' :: a :: b :: c :: d :: r =>
    match hexVal? a, hexVal? b, hexVal? c, hexVal? d with
    | some h1, some h2, some h3, some h4 =>
      let n := ((h1 * 16 + h2) * 16 + h3) * 16 + h4
      if 55296 ≤ n ∧ n ≤ 56319 then
        match r with
        | '\\' :: 'u' :: a2 :: b2 :: c2 :: d2 :: r2 =>
          match hexVal? a2, hexVal? b2, hexVal? c2, hexVal? d2 with
          | some g1, some g2, some g3, some g4 =>
            let m := ((g1 * 16 + g2) * 16 + g3) * 16 + g4
            if 56320 ≤ m ∧ m ≤ 57343 then
              consOpt (Char.ofNat (65536 + (n - 55296) * 1024 + (m - 56320)))
                (parseStringAux f r2)
            else consOpt (Char.ofNat n) (parseStringAux f r)
          | _, _, _, _ => consOpt (Char.ofNat n) (parseStringAux f r)
        | _ => consOpt (Char.ofNat n) (parseStringAux f r)
      else consOpt (Char.ofNat n) (parseStringAux f r)
    | _, _, _, _ => none
  | _ + 1, '\\' :: _ => none
  | f + 1, c :: rest => if c.toNat < 32 then none else consOpt c (parseStringAux f rest)

def parseStringBody (l : List Char) : Option (List Char × List Char) :=
  parseStringAux (l.length + 1) l

/-- Numeric value of a JSON number from its parts (sign, integer part, fraction
digits, decimal exponent), as an exact rational. -/
def mkNum (neg : Bool) (ip : Nat) (frac : List Char) (ex : Int) : Rat :=
  let mant : Nat := frac.foldl (fun a c => a * 10 + digitVal c) ip
  let sn : Int := if neg then -(mant : Int) else (mant : Int)
  if 0 ≤ ex then mkRat (sn * ((10 : Nat) ^ ex.toNat : Nat)) ((10 : Nat) ^ frac.length)
  else mkRat sn ((10 : Nat) ^ frac.length * (10 : Nat) ^ (-ex).toNat)

def parseExpDigits (neg : Bool) (l : List Char) : Option (Int × List Char) :=
  match l.takeWhile isDigit with
  | [] => none
  | ds =>
    let e : Nat := ds.foldl (fun a c => a * 10 + digitVal c) 0
    some (if neg then -(e : Int) else (e : Int), l.dropWhile isDigit)

def parseExpSigned (l : List Char) : Option (Int × List Char) :=
  match l with
  | '+' :: r => parseExpDigits false r
  | '-' :: r => parseExpDigits true r
  | _ => parseExpDigits false l

/-- Optional exponent part of a JSON number. -/
def parseExpPart (l : List Char) : Option (Int × List Char) :=
  match l with
  | 'e' :: r => parseExpSigned r
  | 'E' :: r => parseExpSigned r
  | _ => some (0, l)

/-- Optional fraction and exponent after the integer part of a JSON number. -/
def parseNumTail (neg : Bool) (ip : Nat) (l : List Char) : Option (Rat × List Char) :=
  match l with
  | '.' :: r =>
    match r.takeWhile isDigit with
    | [] => none
    | ds => (parseExpPart (r.dropWhile isDigit)).map (fun p => (mkNum neg ip ds p.1, p.2))
  | _ => (parseExpPart l).map (fun p => (mkNum neg ip [] p.1, p.2))

/-- Integer part of a JSON number: 0, or a nonzero digit followed by digits. -/
def parseNumDigits (neg : Bool) (l : List Char) : Option (Rat × List Char) :=
  match l with
  | '0' :: r => parseNumTail neg 0 r
  | c :: r =>
    if isDigit c then
      parseNumTail neg ((c :: r.takeWhile isDigit).foldl (fun a d => a * 10 + digitVal d) 0)
        (r.dropWhile isDigit)
    else none
  | [] => none

def parseNumber (l : List Char) : Option (Rat × List Char) :=
  match l with
  | '-' :: r => parseNumDigits true r
  | _ => parseNumDigits false l

/-- Insert a key into an object under JSON.parse conventions: first-occurrence
position, last write wins. -/
def setKey : List (List Char × Json) → List Char → Json → List (List Char × Json)
  | [], k, v => [(k, v)]
  | (k1, v1) :: rest, k, v =>
    if k1 == k then (k1, v) :: rest else (k1, v1) :: setKey rest k v

/-- Work items of the recursive-descent JSON parser: a value, the members of an
object, or the elements of an array. -/
inductive PTask where
  | value (l : List Char)
  | members (l : List Char) (acc : List (List Char × Json))
  | elems (l : List Char) (acc : List Json)

/-- One fueled step relation implementing the mutually recursive JSON grammar
(value / object members / array elements) of a standards-conformant parser. -/
def parseStep : Nat → PTask → Option (Json × List Char)
  | 0, _ => none
  | f + 1, PTask.value l =>
    match l with
    | [] => none
    | 't' :: 'r' :: 'u' :: 'e' :: r => some (Json.bool true, r)
    | 'f' :: 'a' :: 'l' :: 's' :: 'e' :: r => some (Json.bool false, r)
    | 'n' :: 'u' :: 'l' :: 'l' :: r => some (Json.null, r)
    | '"' :: r => (parseStringBody r).map (fun p => (Json.str p.1, p.2))
    | '\x7b' :: r =>
      match skipWs r with
      | '\x7d' :: r2 => some (Json.obj [], r2)
      | r2 => parseStep f (PTask.members r2 [])
    | '[' :: r =>
      match skipWs r with
      | ']' :: r2 => some (Json.arr [], r2)
      | r2 => parseStep f (PTask.elems r2 [])
    | c :: _ =>
      if c == '-' || isDigit c then (parseNumber l).map (fun p => (Json.num p.1, p.2))
      else none
  | f + 1, PTask.members l acc =>
    match l with
    | '"' :: r =>
      match parseStringBody r with
      | some (k, r1) =>
        match skipWs r1 with
        | ':' :: r2 =>
          match parseStep f (PTask.value (skipWs r2)) with
          | some (v, r3) =>
            match skipWs r3 with
            | ',' :: r4 => parseStep f (PTask.members (skipWs r4) (setKey acc k v))
            | '\x7d' :: r4 => some (Json.obj (setKey acc k v), r4)
            | _ => none
          | none => none
        | _ => none
      | none => none
    | _ => none
  | f + 1, PTask.elems l acc =>
    match parseStep f (PTask.value l) with
    | some (v, r) =>
      match skipWs r with
      | ',' :: r2 => parseStep f (PTask.elems (skipWs r2) (acc ++ [v]))
      | ']' :: r2 => some (Json.arr (acc ++ [v]), r2)
      | _ => none
    | none => none

/-- Model of the standards-conformant JSON.parse: whitespace-framed single value,
the whole text must be consumed. -/
def parseJson (l : List Char) : Option Json :=
  match parseStep (2 * l.length + 8) (PTask.value (skipWs l)) with
  | some (v, rest) =>
    match skipWs rest with
    | [] => some v
    | _ => none
  | none => none

/-- Three consecutive backticks at the head of the text. -/
def startsWithTicks : List Char → Option (List Char)
  | c1 :: c2 :: c3 :: r =>
    if c1 == '\x60' && c2 == '\x60' && c3 == '\x60' then some r else none
  | _ => none

/-- The optional case-insensitive "json" language tag after an opening fence. -/
def jsonTag : List Char → Option (List Char)
  | c1 :: c2 :: c3 :: c4 :: r =>
    if c1.toLower == 'j' && c2.toLower == 's' && c3.toLower == 'o' && c4.toLower == 'n'
    then some r else none
  | _ => none

/-- First alternative of the fence regex (ensureJson.ts line 57): at a line
start, greedy whitespace, three backticks, an optional case-insensitive json
tag.  Returns (consumed characters, remaining text). -/
def fenceAlt1 (l : List Char) : Option (List Char × List Char) :=
  match startsWithTicks (l.dropWhile isJsWs) with
  | some l2 =>
    match jsonTag l2 with
    | some l3 =>
      some (l.takeWhile isJsWs ++ ['\x60', '\x60', '\x60'] ++ l2.take 4, l3)
    | none => some (l.takeWhile isJsWs ++ ['\x60', '\x60', '\x60'], l2)
  | none => none

/-- Split a character list at its last newline: gives the part before it and
the part after it, when a newline exists. -/
def lastNlSplit : List Char → Option (List Char × List Char)
  | [] => none
  | c :: r =>
    match lastNlSplit r with
    | some p => some (c :: p.1, p.2)
    | none => if c == '\n' then some ([], r) else none

/-- Second alternative of the fence regex: three backticks, then greedy
whitespace up to a position where the multiline end-of-line anchor holds
(end of text, or just before a newline). -/
def fenceAlt2 (l : List Char) : Option (List Char × List Char) :=
  match startsWithTicks l with
  | some l1 =>
    match l1.dropWhile isJsWs with
    | [] => some (['\x60', '\x60', '\x60'] ++ l1.takeWhile isJsWs, [])
    | l2 =>
      match lastNlSplit (l1.takeWhile isJsWs) with
      | some p => some (['\x60', '\x60', '\x60'] ++ p.1, '\n' :: p.2 ++ l2)
      | none => none
  | none => none

/-- One match attempt of the fence regex at the current position: the first
alternative applies only at a line start, the second anywhere. -/
def tryFenceMatch (ls : Bool) (l : List Char) : Option (List Char × List Char) :=
  match (if ls then fenceAlt1 l else none) with
  | some p => some p
  | none => fenceAlt2 l

/-- Global scan of the fence regex replace: at each position try a match
(tracking whether the position starts a line, as the multiline flag requires);
on a match emit nothing and continue after it, otherwise keep the character. -/
def fenceAux : Nat → Bool → List Char → List Char
  | 0, _, l => l
  | _ + 1, _, [] => []
  | f + 1, ls, c :: r =>
    match tryFenceMatch ls (c :: r) with
    | some p => fenceAux f (p.1.getLast? == some '\n') p.2
    | none => c :: fenceAux f (c == '\n') r

/-- Step 1 of tryRepair (ensureJson.ts line 57): strip markdown fences. -/
def fenceStrip (l : List Char) : List Char := fenceAux l.length true l

/-- Index of the first opening brace or bracket, the minimum of the two
indexOf results computed at ensureJson.ts lines 58-63. -/
def firstBraceIdx : List Char → Option Nat
  | [] => none
  | c :: r =>
    if c == '\x7b' || c == '[' then some 0
    else (firstBraceIdx r).map (· + 1)

/-- Payload locator (ensureJson.ts line 64): slice from the first brace or
bracket; text without either passes through unchanged. -/
def locate (l : List Char) : List Char :=
  match firstBraceIdx l with
  | some i => l.drop i
  | none => l

/-- Global scan of the trailing-comma regex replace (ensureJson.ts line 67):
a comma, greedy whitespace, then a closing brace or bracket is replaced by
just that closing character. -/
def decommaAux : Nat → List Char → List Char
  | 0, l => l
  | _ + 1, [] => []
  | f + 1, c :: r =>
    if c == ',' then
      match r.dropWhile isJsWs with
      | b :: r2 =>
        if b == '\x7d' || b == ']' then b :: decommaAux f r2
        else c :: decommaAux f r
      | [] => c :: decommaAux f r
    else c :: decommaAux f r

/-- Step 2 of tryRepair: remove trailing commas. -/
def decomma (l : List Char) : List Char := decommaAux l.length l

/-- Global scan of the single-quoted-key regex replace (ensureJson.ts line 70):
a single quote, one or more non-quote characters, a single quote and a colon
become the same key in double quotes with the colon. -/
def squotesAux : Nat → List Char → List Char
  | 0, l => l
  | _ + 1, [] => []
  | f + 1, c :: r =>
    if c == '\x27' then
      match r.takeWhile (fun x => !(x == '\x27')), r.dropWhile (fun x => !(x == '\x27')) with
      | mid, '\x27' :: ':' :: r2 =>
        match mid with
        | [] => c :: squotesAux f r
        | _ => '"' :: mid ++ '"' :: ':' :: squotesAux f r2
      | _, _ => c :: squotesAux f r
    else c :: squotesAux f r

/-- Step 3 of tryRepair: single quotes around keys become double quotes. -/
def squotes (l : List Char) : List Char := squotesAux l.length l

/-- Global scan of the bare-key regex replace (ensureJson.ts line 73): an
opening brace or comma, whitespace, an identifier, optional whitespace and a
colon are rewritten keeping the prefix, quoting the identifier, dropping the
whitespace before the colon. -/
def qkeysAux : Nat → List Char → List Char
  | 0, l => l
  | _ + 1, [] => []
  | f + 1, c :: r =>
    if c == '\x7b' || c == ',' then
      match (r.dropWhile isJsWs).takeWhile isIdentChar with
      | [] => c :: qkeysAux f r
      | idt =>
        match ((r.dropWhile isJsWs).dropWhile isIdentChar).dropWhile isJsWs with
        | ':' :: r4 => c :: r.takeWhile isJsWs ++ '"' :: idt ++ '"' :: ':' :: qkeysAux f r4
        | _ => c :: qkeysAux f r
    else c :: qkeysAux f r

/-- Step 4 of tryRepair: quote bare keys. -/
def qkeys (l : List Char) : List Char := qkeysAux l.length l

/-- Step 5 of tryRepair (ensureJson.ts lines 76-81): append one closing brace
when raw-count opens equal closes plus one, then likewise one closing
bracket. -/
def balance (l : List Char) : List Char :=
  if l.count '\x7b' = l.count '\x7d' + 1 then
    if (l ++ ['\x7d']).count '[' = (l ++ ['\x7d']).count ']' + 1 then
      l ++ ['\x7d'] ++ [']']
    else l ++ ['\x7d']
  else
    if l.count '[' = l.count ']' + 1 then l ++ [']'] else l

/-- The textual stages of tryRepair in order: fence stripping, payload
location, trailing-comma removal, quote normalization, bare-key quoting,
bracket balancing. -/
def tryRepairText (l : List Char) : List Char :=
  balance (qkeys (squotes (decomma (locate (fenceStrip l)))))

/-- The JsonFixError of ensureJson.ts lines 6-13: a message and the raw input. -/
structure JsonFixError where
  msg : String
  raw : String

def repairFailureMsg : String := "Failed to repair and parse JSON"

def validationFailureMsg : String := "Schema validation failed"

/-- tryRepair (ensureJson.ts lines 53-89): run the textual stages, parse; on
parse failure raise JsonFixError with the original raw input. -/
def tryRepair (raw : String) : Except JsonFixError Json :=
  match parseJson (tryRepairText raw.toList) with
  | some v => Except.ok v
  | none => Except.error ⟨repairFailureMsg, raw⟩

/-- The optional Zod-schema step of ensureJson (lines 29-35): a shape
description is a function accepting a value (possibly coercing it) or
rejecting it; rejection raises JsonFixError with the original raw input. -/
def applySchema (raw : String) (schema : Option (Json → Option Json)) (v : Json) :
    Except JsonFixError Json :=
  match schema with
  | none => Except.ok v
  | some sch =>
    match sch v with
    | some d => Except.ok d
    | none => Except.error ⟨validationFailureMsg, raw⟩

/-- ensureJson (ensureJson.ts lines 19-37): strict parse, fall back to the
repair pipeline on failure, then optionally validate. -/
def ensureJson (raw : String) (schema : Option (Json → Option Json)) :
    Except JsonFixError Json :=
  match parseJson raw.toList with
  | some v => applySchema raw schema v
  | none =>
    match tryRepair raw with
    | Except.ok v => applySchema raw schema v
    | Except.error e => Except.error e

/-- A shape description requiring an object with a field named b, as in
Scenario E of the specification. -/
def requireFieldB (v : Json) : Option Json :=
  match v with
  | Json.obj kvs => if kvs.any (fun kv => kv.1 == ['b']) then some v else none
  | _ => none

/-- Rejection by the optional shape description always carries the validation
message and the original raw input. -/
theorem applySchema_error (raw : String) (schema : Option (Json → Option Json))
    (v : Json) (e : JsonFixError) (h : applySchema raw schema v = Except.error e) :
    e = ⟨validationFailureMsg, raw⟩ := by
  unfold applySchema at h
  split at h
  · exact Except.noConfusion h
  · split at h
    · exact Except.noConfusion h
    · injection h with h1
      exact h1.symm

/-- A failing repair always carries the repair message and the original raw
input. -/
theorem tryRepair_error (raw : String) (e : JsonFixError)
    (h : tryRepair raw = Except.error e) : e = ⟨repairFailureMsg, raw⟩ := by
  unfold tryRepair at h
  split at h
  · exact Except.noConfusion h
  · injection h with h1
    exact h1.symm

/-- With no shape description supplied, the only possible failure of the entry
point is the repair failure on the original input. -/
theorem ensureJson_none_error (raw : String) (e : JsonFixError)
    (h : ensureJson raw none = Except.error e) : e = ⟨repairFailureMsg, raw⟩ := by
  unfold ensureJson at h
  split at h
  · simp only [applySchema] at h
    exact Except.noConfusion h
  · split at h
    · simp only [applySchema] at h
      exact Except.noConfusion h
    · rename_i e3 heq
      injection h with h1
      rw [← h1]
      exact tryRepair_error raw e3 heq

/-- When the strict parse succeeds, the entry point goes directly to the
validation step. -/
theorem ensureJson_parse_some (raw : String) (schema : Option (Json → Option Json))
    (v : Json) (hp : parseJson raw.toList = some v) :
    ensureJson raw schema = applySchema raw schema v := by
  unfold ensureJson
  rw [hp]

/-- When both the strict parse and the parse of the repaired text fail, the
entry point reports a repair failure on the original input. -/
theorem ensureJson_both_none (raw : String) (schema : Option (Json → Option Json))
    (h1 : parseJson raw.toList = none)
    (h2 : parseJson (tryRepairText raw.toList) = none) :
    ensureJson raw schema = Except.error ⟨repairFailureMsg, raw⟩ := by
  unfold ensureJson tryRepair
  rw [h1, h2]

/-- A character class excludes any character outside it. -/
theorem ws_no_char (x : Char) (hx : isJsWs x = false) {l : List Char}
    (h : ∀ c ∈ l, isJsWs c = true) : x ∉ l := by
  intro hm
  rw [h x hm] at hx
  exact Bool.noConfusion hx

/-- Text without a backtick cannot start with a fence. -/
theorem startsWithTicks_none {m : List Char} (h : '\x60' ∉ m) :
    startsWithTicks m = none := by
  rcases m with _ | ⟨c1, _ | ⟨c2, _ | ⟨c3, r⟩⟩⟩
  · rfl
  · rfl
  · rfl
  · have h1 : (c1 == '\x60') = false :=
      beq_eq_false_iff_ne.mpr (fun heq => h (List.mem_cons.mpr (Or.inl heq.symm)))
    simp [startsWithTicks, h1]

theorem fenceAlt1_none {l : List Char} (h : '\x60' ∉ l) : fenceAlt1 l = none := by
  have h2 : startsWithTicks (l.dropWhile isJsWs) = none :=
    startsWithTicks_none (fun hm => h ((List.dropWhile_sublist _).subset hm))
  unfold fenceAlt1
  rw [h2]

theorem fenceAlt2_none {l : List Char} (h : '\x60' ∉ l) : fenceAlt2 l = none := by
  unfold fenceAlt2
  rw [startsWithTicks_none h]

theorem tryFenceMatch_none {l : List Char} (h : '\x60' ∉ l) (ls : Bool) :
    tryFenceMatch ls l = none := by
  unfold tryFenceMatch
  cases ls <;> simp [fenceAlt1_none h, fenceAlt2_none h]

/-- The fence stripper leaves backtick-free text unchanged. -/
theorem fenceAux_id (f : Nat) (ls : Bool) (l : List Char) (h : '\x60' ∉ l) :
    fenceAux f ls l = l := by
  induction f generalizing ls l with
  | zero => rfl
  | succ f ih =>
    cases l with
    | nil => rfl
    | cons c r =>
      simp only [fenceAux, tryFenceMatch_none h]
      exact congrArg (c :: ·) (ih (c == '\n') r (fun hm => h (List.mem_cons_of_mem c hm)))

theorem fenceStrip_id {l : List Char} (h : '\x60' ∉ l) : fenceStrip l = l :=
  fenceAux_id l.length true l h

theorem firstBraceIdx_none {l : List Char} (h1 : '\x7b' ∉ l) (h2 : '[' ∉ l) :
    firstBraceIdx l = none := by
  induction l with
  | nil => rfl
  | cons c r ih =>
    have hc1 : (c == '\x7b') = false :=
      beq_eq_false_iff_ne.mpr (fun he => h1 (List.mem_cons.mpr (Or.inl he.symm)))
    have hc2 : (c == '[') = false :=
      beq_eq_false_iff_ne.mpr (fun he => h2 (List.mem_cons.mpr (Or.inl he.symm)))
    simp [firstBraceIdx, hc1, hc2,
      ih (fun hm => h1 (List.mem_cons_of_mem c hm)) (fun hm => h2 (List.mem_cons_of_mem c hm))]

/-- The payload locator leaves brace- and bracket-free text unchanged. -/
theorem locate_id {l : List Char} (h1 : '\x7b' ∉ l) (h2 : '[' ∉ l) : locate l = l := by
  unfold locate
  rw [firstBraceIdx_none h1 h2]

/-- The trailing-comma pass leaves comma-free text unchanged. -/
theorem decommaAux_id (f : Nat) {l : List Char} (h : ',' ∉ l) : decommaAux f l = l := by
  induction f generalizing l with
  | zero => rfl
  | succ f ih =>
    cases l with
    | nil => rfl
    | cons c r =>
      have hc : (c == ',') = false :=
        beq_eq_false_iff_ne.mpr (fun he => h (List.mem_cons.mpr (Or.inl he.symm)))
      simp [decommaAux, hc, ih (fun hm => h (List.mem_cons_of_mem c hm))]

/-- The quote-normalization pass leaves single-quote-free text unchanged. -/
theorem squotesAux_id (f : Nat) {l : List Char} (h : '\x27' ∉ l) : squotesAux f l = l := by
  induction f generalizing l with
  | zero => rfl
  | succ f ih =>
    cases l with
    | nil => rfl
    | cons c r =>
      have hc : (c == '\x27') = false :=
        beq_eq_false_iff_ne.mpr (fun he => h (List.mem_cons.mpr (Or.inl he.symm)))
      simp [squotesAux, hc, ih (fun hm => h (List.mem_cons_of_mem c hm))]

/-- The bare-key pass leaves brace- and comma-free text unchanged. -/
theorem qkeysAux_id (f : Nat) {l : List Char} (h1 : '\x7b' ∉ l) (h2 : ',' ∉ l) :
    qkeysAux f l = l := by
  induction f generalizing l with
  | zero => rfl
  | succ f ih =>
    cases l with
    | nil => rfl
    | cons c r =>
      have hc1 : (c == '\x7b') = false :=
        beq_eq_false_iff_ne.mpr (fun he => h1 (List.mem_cons.mpr (Or.inl he.symm)))
      have hc2 : (c == ',') = false :=
        beq_eq_false_iff_ne.mpr (fun he => h2 (List.mem_cons.mpr (Or.inl he.symm)))
      simp [qkeysAux, hc1, hc2,
        ih (fun hm => h1 (List.mem_cons_of_mem c hm)) (fun hm => h2 (List.mem_cons_of_mem c hm))]

/-- The balancer appends nothing to text with no opening brace or bracket. -/
theorem balance_id {l : List Char} (h1 : '\x7b' ∉ l) (h2 : '[' ∉ l) : balance l = l := by
  have c1 : l.count '\x7b' = 0 := List.count_eq_zero.mpr h1
  have c2 : l.count '[' = 0 := List.count_eq_zero.mpr h2
  unfold balance
  rw [c1, c2, if_neg (by omega), if_neg (by omega)]

/-- The whole textual pipeline leaves whitespace-only text unchanged. -/
theorem tryRepairText_ws_id {l : List Char} (h : ∀ c ∈ l, isJsWs c = true) :
    tryRepairText l = l := by
  have h60 : '\x60' ∉ l := ws_no_char '\x60' rfl h
  have h7b : '\x7b' ∉ l := ws_no_char '\x7b' rfl h
  have h5b : '[' ∉ l := ws_no_char '[' rfl h
  have hcm : ',' ∉ l := ws_no_char ',' rfl h
  have h27 : '\x27' ∉ l := ws_no_char '\x27' rfl h
  unfold tryRepairText decomma squotes qkeys
  rw [fenceStrip_id h60, locate_id h7b h5b, decommaAux_id _ hcm, squotesAux_id _ h27,
    qkeysAux_id _ h7b hcm, balance_id h7b h5b]

theorem parseStep_value_nil (f : Nat) : parseStep (f + 1) (PTask.value []) = none := rfl

theorem parseStep_value_vt (f : Nat) (r : List Char) :
    parseStep (f + 1) (PTask.value ('\x0b' :: r)) = none := rfl

theorem parseStep_value_ff (f : Nat) (r : List Char) :
    parseStep (f + 1) (PTask.value ('\x0c' :: r)) = none := rfl

/-- Skipping JSON whitespace in whitespace-only text leaves nothing or a
vertical-tab or form-feed head, neither of which starts a JSON value. -/
theorem skipWs_ws {l : List Char} (h : ∀ c ∈ l, isJsWs c = true) :
    skipWs l = [] ∨ ∃ c r, skipWs l = c :: r ∧ (c = '\x0b' ∨ c = '\x0c') := by
  induction l with
  | nil => exact Or.inl rfl
  | cons c r ih =>
    by_cases hc : isJsonWs c = true
    · have hstep : skipWs (c :: r) = skipWs r := by
        simp [skipWs, List.dropWhile_cons, hc]
      rw [hstep]
      exact ih (fun x hx => h x (List.mem_cons_of_mem c hx))
    · right
      have hcw : isJsWs c = true := h c (List.mem_cons_self c r)
      have hstep : skipWs (c :: r) = c :: r := by
        simp [skipWs, List.dropWhile_cons, hc]
      refine ⟨c, r, hstep, ?_⟩
      simp only [isJsWs, Bool.or_eq_true, beq_iff_eq] at hcw
      rcases hcw with ((((h1 | h2) | h3) | h4) | h5) | h6
      · subst h1; exact absurd rfl hc
      · subst h2; exact absurd rfl hc
      · subst h3; exact absurd rfl hc
      · subst h4; exact absurd rfl hc
      · exact Or.inl h5
      · exact Or.inr h6

/-- The strict parser rejects whitespace-only text. -/
theorem parse_ws_none {l : List Char} (h : ∀ c ∈ l, isJsWs c = true) :
    parseJson l = none := by
  rcases skipWs_ws h with h0 | ⟨c, r, hcr, hc⟩
  · unfold parseJson
    rw [h0, show 2 * l.length + 8 = (2 * l.length + 7) + 1 from rfl, parseStep_value_nil]
  · unfold parseJson
    rw [hcr, show 2 * l.length + 8 = (2 * l.length + 7) + 1 from rfl]
    rcases hc with rfl | rfl
    · rw [parseStep_value_vt]
    · rw [parseStep_value_ff]

/-- C1: when the raw text parses as valid JSON but the supplied shape
description rejects the parsed value, the entry point fails with the
validation message on the original input, and no failure produced without a
schema (in particular no repair failure) ever carries that message, so the
two failure kinds are distinguishable. -/
theorem ensureJson_schema_reject_distinct (raw : String) (sch : Json → Option Json)
    (v : Json) (hp : parseJson raw.toList = some v) (hs : sch v = none) :
    ensureJson raw (some sch) = Except.error ⟨validationFailureMsg, raw⟩ ∧
    ∀ (raw2 : String) (e2 : JsonFixError), ensureJson raw2 none = Except.error e2 →
      e2.msg ≠ validationFailureMsg := by
  constructor
  · rw [ensureJson_parse_some raw (some sch) v hp]
    simp only [applySchema]
    rw [hs]
  · intro raw2 e2 h2
    rw [ensureJson_none_error raw2 e2 h2]
    show repairFailureMsg ≠ validationFailureMsg
    decide

/-- C1 witness: valid JSON with field a only, against a shape description
requiring field b. -/
theorem ensureJson_schema_reject_distinct_witness :
    ensureJson "\x7b\"a\":1\x7d" (some requireFieldB) =
      Except.error ⟨validationFailureMsg, "\x7b\"a\":1\x7d"⟩ :=
  (ensureJson_schema_reject_distinct "\x7b\"a\":1\x7d" requireFieldB
    (Json.obj [("a".toList, Json.num 1)]) rfl rfl).1

/-- C2: the trailing-comma rewrite fires inside a string literal.  On the
otherwise-repairable input with string value "hi, \x7d" the pipeline succeeds
but returns the corrupted string value "hi\x7d": the comma inside the literal
was stripped, refuting literal-boundary safety. -/
theorem decomma_corrupts_string_value :
    ensureJson "\x7b\"msg\": \"hi, \x7d\",\x7d" none =
      Except.ok (Json.obj [("msg".toList, Json.str "hi\x7d".toList)]) ∧
    "hi\x7d".toList ≠ "hi, \x7d".toList :=
  ⟨rfl, by decide⟩

/-- C3: on Scenario B the pipeline fails instead of producing the completed
object: two closing braces are missing but the balancer appends a closing
brace only when exactly one is missing, so only the bracket is appended and
the parse fails; the second conjunct shows the balancer output. -/
theorem scenarioB_repair_fails :
    ensureJson "\x7b\"users\": [\x7b\"name\": \"Alice\"\x7d, \x7b\"name\": \"Bob\"" none =
      Except.error ⟨repairFailureMsg,
        "\x7b\"users\": [\x7b\"name\": \"Alice\"\x7d, \x7b\"name\": \"Bob\""⟩ ∧
    tryRepairText "\x7b\"users\": [\x7b\"name\": \"Alice\"\x7d, \x7b\"name\": \"Bob\"".toList =
      "\x7b\"users\": [\x7b\"name\": \"Alice\"\x7d, \x7b\"name\": \"Bob\"]".toList :=
  ⟨rfl, rfl⟩

/-- C4: the balancer counts raw character occurrences and appends the brace
before the bracket.  On an object truncated inside an array it produces the
mis-nested text ending in brace-bracket and the pipeline fails; on an object
whose string value contains a closing brace the raw count suppresses the
needed append and the pipeline fails. -/
theorem balancer_naive_append :
    tryRepairText "\x7b\"a\": [1, 2".toList = "\x7b\"a\": [1, 2\x7d]".toList ∧
    ensureJson "\x7b\"a\": [1, 2" none =
      Except.error ⟨repairFailureMsg, "\x7b\"a\": [1, 2"⟩ ∧
    ensureJson "\x7b\"a\": \"\x7d\"" none =
      Except.error ⟨repairFailureMsg, "\x7b\"a\": \"\x7d\""⟩ :=
  ⟨rfl, rfl, rfl⟩

/-- C5: on text the strict parser accepts, the entry point without a shape
description returns exactly the strictly parsed value. -/
theorem ensureJson_valid_json_id (raw : String) (v : Json)
    (hp : parseJson raw.toList = some v) : ensureJson raw none = Except.ok v := by
  rw [ensureJson_parse_some raw none v hp]
  rfl

/-- C5 witness. -/
theorem ensureJson_valid_json_id_witness :
    ensureJson "true" none = Except.ok (Json.bool true) :=
  ensureJson_valid_json_id "true" (Json.bool true) rfl

/-- C6: every failure of the entry point carries the exact original raw
input. -/
theorem ensureJson_error_raw_pristine (raw : String)
    (schema : Option (Json → Option Json)) (e : JsonFixError)
    (h : ensureJson raw schema = Except.error e) : e.raw = raw := by
  unfold ensureJson at h
  split at h
  · rw [applySchema_error raw schema _ e h]
  · split at h
    · rw [applySchema_error raw schema _ e h]
    · rename_i e3 heq
      injection h with h1
      rw [← h1, tryRepair_error raw e3 heq]

/-- C6 witness. -/
theorem ensureJson_error_raw_pristine_witness :
    (JsonFixError.mk repairFailureMsg "").raw = "" :=
  ensureJson_error_raw_pristine "" none ⟨repairFailureMsg, ""⟩ rfl

/-- C7 counterexample: empty input and the brace-free prose input fail with
the identical message, so the messages are not distinguishable, and the
brace- and bracket-free input 42 succeeds rather than failing. -/
theorem no_structure_failures_not_distinguishable :
    ensureJson "" none = Except.error ⟨repairFailureMsg, ""⟩ ∧
    ensureJson "Hello world" none = Except.error ⟨repairFailureMsg, "Hello world"⟩ ∧
    ensureJson "42" none = Except.ok (Json.num 42) :=
  ⟨rfl, rfl, rfl⟩

/-- C7 amended: every empty or whitespace-only input yields a repair failure,
and so does the brace- and bracket-free prose input Hello world; all of these
failures carry the same repair message rather than distinguishable ones. -/
theorem ws_and_prose_inputs_repair_failure (raw : String)
    (h : raw.toList.all isJsWs = true) :
    ensureJson raw none = Except.error ⟨repairFailureMsg, raw⟩ ∧
    ensureJson "Hello world" none = Except.error ⟨repairFailureMsg, "Hello world"⟩ := by
  have hmem : ∀ c ∈ raw.toList, isJsWs c = true := List.all_eq_true.mp h
  have h1 : parseJson raw.toList = none := parse_ws_none hmem
  have h2 : parseJson (tryRepairText raw.toList) = none := by
    rw [tryRepairText_ws_id hmem]
    exact h1
  exact ⟨ensureJson_both_none raw none h1 h2, rfl⟩

/-- C7 witness: a single-space input. -/
theorem ws_and_prose_inputs_repair_failure_witness :
    ensureJson " " none = Except.error ⟨repairFailureMsg, " "⟩ :=
  (ws_and_prose_inputs_repair_failure " " rfl).1

/-- C8: Scenario A, the fenced object with bare keys and a trailing comma
repairs to the object with name Alice and age 42. -/
theorem scenarioA_combined_repair :
    ensureJson "\x60\x60\x60json\n\x7b name: \"Alice\", age: 42, \x7d\n\x60\x60\x60" none =
      Except.ok (Json.obj [("name".toList, Json.str "Alice".toList),
        ("age".toList, Json.num 42)]) :=
  rfl

/-- C9: the textual stages are not idempotent.  On this input the pipeline
succeeds with string value ", \x7d", but running the stages a second time
strips the comma now exposed inside the string literal and parsing yields the
different string value "\x7d". -/
theorem rewrite_stages_not_idempotent :
    parseJson (tryRepairText "\x7b\"a\": \", , \x7d\",\x7d".toList) =
      some (Json.obj [("a".toList, Json.str ", \x7d".toList)]) ∧
    parseJson (tryRepairText (tryRepairText "\x7b\"a\": \", , \x7d\",\x7d".toList)) =
      some (Json.obj [("a".toList, Json.str "\x7d".toList)]) ∧
    ensureJson "\x7b\"a\": \", , \x7d\",\x7d" none =
      Except.ok (Json.obj [("a".toList, Json.str ", \x7d".toList)]) :=
  ⟨rfl, rfl, rfl⟩

/-- C10: input that is itself valid JSON of a non-container type is returned
by the strict parse before any repair stage runs, and never yields a failure,
even with no brace or bracket present. -/
theorem ensureJson_scalar_strict_parse (raw : String) (v : Json)
    (hp : parseJson raw.toList = some v) (_hsc : Json.isScalar v = true) :
    ensureJson raw none = Except.ok v ∧ ∀ e, ensureJson raw none ≠ Except.error e := by
  have h1 : ensureJson raw none = Except.ok v := by
    rw [ensureJson_parse_some raw none v hp]
    rfl
  refine ⟨h1, fun e he => ?_⟩
  rw [h1] at he
  exact Except.noConfusion he

/-- C10 witness: a quoted string scalar. -/
theorem ensureJson_scalar_strict_parse_witness :
    ensureJson "\"Hello world\"" none = Except.ok (Json.str "Hello world".toList) :=
  (ensureJson_scalar_strict_parse "\"Hello world\"" (Json.str "Hello world".toList)
    rfl rfl).1

end EnsureJson
